import Mathlib

/-
Verification development for the Tool4Boxology embedding pipeline
(JSONEmbed.py: fact loading, TransE-style training, validation, persistence)
and its retrieval engine (KGRAG.py: artifact loading, label-similarity ranking).

Modelling conventions:
- Python strings are modelled as lists of Unicode code points (`Str := List ℕ`);
  `strCP` converts a Lean string literal to that representation.
- Python's random generator is modelled as an oracle stream `σ : ℕ → ℕ` with an
  explicit read offset `k`; `random.random() < 0.5` reads one value (parity) and
  `random.randint(0, n-1)` reads one value (reduced mod n); each primitive call
  advances the offset by one.
- numpy float arrays are modelled over ℝ (exact real arithmetic in place of
  float32); in-place row mutation is modelled by `List.set`, which makes the
  aliasing behaviour of sequential numpy updates explicit.
- Python's stable `list.sort` is modelled by the stable `List.insertionSort`.
- Python exceptions on the artifact-loading path are modelled with `Except`.
-/

/-- Python strings as code-point lists. -/
abbrev Str := List ℕ

/-- Code points of a Lean string literal. -/
def strCP (s : String) : Str := s.data.map (fun c => c.toNat)

/-- An indexed fact (head entity index, relation index, tail entity index). -/
abbrev Triple := ℕ × ℕ × ℕ

/-- Model of `random.random() < 0.5`: one oracle read, tested for parity. -/
def coin (σ : ℕ → ℕ) (k : ℕ) : Bool := σ k % 2 == 0

/-- Model of `random.randint(0, n - 1)`: one oracle read, reduced mod n. -/
def randint (σ : ℕ → ℕ) (k n : ℕ) : ℕ := σ k % n

/-- Retry loop of `generate_negative_sample` (JSONEmbed.py lines 278-294).
Each attempt reads two oracle values (a coin for head-vs-tail and an entity
index); a corruption colliding with the true-fact set `S` is rejected and
retried while fuel remains; at fuel 0 the unchecked fallback corruption
(lines 291-294) is returned. -/
def gen_neg_aux (σ : ℕ → ℕ) (h r t n : ℕ) (S : List Triple) : ℕ → ℕ → Triple × ℕ
  | 0, k =>
      if coin σ k then ((randint σ (k + 1) n, r, t), k + 2)
      else ((h, r, randint σ (k + 1) n), k + 2)
  | fuel + 1, k =>
      let neg : Triple :=
        if coin σ k then (randint σ (k + 1) n, r, t) else (h, r, randint σ (k + 1) n)
      if neg ∈ S then gen_neg_aux σ h r t n S fuel (k + 2) else (neg, k + 2)

/-- `generate_negative_sample(triple, num_entities, entity_set, max_attempts=100)`
(JSONEmbed.py lines 269-294). Returns the corrupted triple and the advanced
oracle offset. -/
def generate_negative_sample (σ : ℕ → ℕ) (k : ℕ) (tr : Triple) (n : ℕ)
    (S : List Triple) (maxAttempts : ℕ) : Triple × ℕ :=
  gen_neg_aux σ tr.1 tr.2.1 tr.2.2 n S maxAttempts k

/-- The validator's negative draw (`evaluate_model_margin`, JSONEmbed.py lines
337-350): a single head-or-tail corruption with no collision check against the
true-fact set and no retry. -/
def val_neg_draw (σ : ℕ → ℕ) (k h r t n : ℕ) : Triple × ℕ :=
  if coin σ k then ((randint σ (k + 1) n, r, t), k + 2)
  else ((h, r, randint σ (k + 1) n), k + 2)

/- Fact Loader and Filter (`load_kg_triples`, JSONEmbed.py lines 130-217). -/

/-- The `rdfs:label` predicate filtered at JSONEmbed.py line 165. -/
def rdfs_label_uri : Str := strCP "http://www.w3.org/2000/01/rdf-schema#label"

/-- The `rdf:type` predicate filtered at JSONEmbed.py line 170. -/
def rdf_type_uri : Str := strCP "http://www.w3.org/1999/02/22-rdf-syntax-ns#type"

/-- The structural predicate allow-list `KEEP_PREDICATES` (JSONEmbed.py lines 46-53). -/
def KEEP_PREDICATES : List Str :=
  [strCP "http://tool4boxology.org/hasInput",
   strCP "http://tool4boxology.org/hasOutput",
   strCP "http://tool4boxology.org/hasProcess",
   strCP "http://tool4boxology.org/hasPattern",
   strCP "http://tool4boxology.org/inputRoleParticipatesInProcess",
   strCP "http://tool4boxology.org/outputRoleParticipatesInProcess"]

/-- A parsed fact record (subject URI, predicate URI, object URI-or-literal),
the output of `parse_nt_line`. Literals carry surrounding double quotes. -/
abbrev Record := Str × Str × Str

/-- `is_literal(obj)` (JSONEmbed.py lines 74-76): the object starts and ends
with a double quote (code point 34). -/
def is_literal (o : Str) : Bool := o.head? == some 34 && o.getLast? == some 34

/-- The retention test of the filter cascade in `load_kg_triples` (JSONEmbed.py
lines 164-184): a record is kept iff its predicate is not `rdfs:label`, not
`rdf:type`, its object is not a literal, and its predicate is allow-listed. -/
def keep_record (rec : Record) : Bool :=
  !(rec.2.1 == rdfs_label_uri) && !(rec.2.1 == rdf_type_uri) &&
  !(is_literal rec.2.2) && KEEP_PREDICATES.contains rec.2.1

/-- The retained record list of `load_kg_triples`. -/
def kept_triples (recs : List Record) : List Record := recs.filter keep_record

/-- The surviving entity occurrences (subjects and objects of kept records);
the Python code accumulates them into a set, modelled below by `List.dedup`. -/
def record_entities (recs : List Record) : List Str :=
  (kept_triples recs).foldr (fun rec acc => rec.1 :: rec.2.2 :: acc) []

/-- Lexicographic code-point comparison, the order used by Python's `sorted`
on strings (JSONEmbed.py line 208). -/
def lexLe : Str → Str → Bool
  | [], _ => true
  | _ :: _, [] => false
  | a :: as, b :: bs => if a < b then true else if b < a then false else lexLe as bs

/-- `lexLe` as a relation, for use with the sorting library. -/
def lexR (a b : Str) : Prop := lexLe a b = true

instance : DecidableRel lexR := fun a b => inferInstanceAs (Decidable (lexLe a b = true))

/-- Strict lexicographic order on code-point strings. -/
def lexLt (a b : Str) : Prop := lexLe a b = true ∧ ¬lexLe b a = true

instance : DecidableRel lexLt :=
  fun a b => inferInstanceAs (Decidable (lexLe a b = true ∧ ¬lexLe b a = true))

/-- `sorted(entities)` over the distinct surviving URIs (JSONEmbed.py line 208). -/
def sorted_entities (recs : List Record) : List Str :=
  List.insertionSort lexR (record_entities recs).dedup

/-- Pair each list element with its position, starting at a given index. -/
def withIdx : ℕ → List Str → List (Str × ℕ)
  | _, [] => []
  | i, a :: t => (a, i) :: withIdx (i + 1) t

/-- `entity_to_idx = {entity: idx for idx, entity in enumerate(sorted(entities))}`
(JSONEmbed.py line 208), as an association list in enumeration order. -/
def entity_to_idx (recs : List Record) : List (Str × ℕ) :=
  withIdx 0 (sorted_entities recs)

/- Retrieval Engine candidate ranking (`find_similar_entities`, KGRAG.py
lines 211-241). -/

/-- ASCII lower-casing of one code point, modelling `str.lower()`. -/
def toLowerCP (c : ℕ) : ℕ := if 65 ≤ c ∧ c ≤ 90 then c + 32 else c

/-- `s.lower()` on a code-point string. -/
def lowerStr (s : Str) : Str := s.map toLowerCP

/-- Whether the first string is a prefix of the second. -/
def isPre : Str → Str → Bool
  | [], _ => true
  | _ :: _, [] => false
  | a :: as, b :: bs => a == b && isPre as bs

/-- Python's substring containment `needle in hay`. -/
def containsSub (needle : Str) : Str → Bool
  | [] => needle.isEmpty
  | c :: t => isPre needle (c :: t) || containsSub needle t

/-- ASCII whitespace code points, for `str.split()`. -/
def isWsCP (c : ℕ) : Bool := c == 32 || c == 9 || c == 10 || c == 13 || c == 11 || c == 12

/-- Accumulator loop behind `split_words`; the current word is built reversed. -/
def splitWsAux : Str → Str → List Str
  | cur, [] => if cur.isEmpty then [] else [cur.reverse]
  | cur, c :: rest =>
      if isWsCP c then
        if cur.isEmpty then splitWsAux [] rest else cur.reverse :: splitWsAux [] rest
      else splitWsAux (c :: cur) rest

/-- Python's `s.split()`: split on whitespace runs, dropping empty pieces. -/
def split_words (s : Str) : List Str := splitWsAux [] s

/-- The per-entity score of `find_similar_entities` (KGRAG.py lines 219-237),
taking the already lower-cased query. Returns `none` when the entity is
excluded (empty token overlap in the final branch). Word sets are modelled by
deduplicated word lists. -/
def score_entry (q : Str) (entry : ℕ × Str) : Option (ℕ × ℚ) :=
  let l := lowerStr entry.2
  if q = l then some (entry.1, 1)
  else if containsSub q l then some (entry.1, 8 / 10)
  else if containsSub l q then some (entry.1, 6 / 10)
  else
    let qw := (split_words q).dedup
    let lw := (split_words l).dedup
    let overlap := (qw.filter (fun wq => lw.contains wq)).length
    if 0 < overlap then
      some (entry.1, 4 / 10 * (overlap : ℚ) / (max qw.length lw.length : ℕ))
    else none

/-- Specification-side scoring function, written from the spec's words: 1.0 on
an exact case-insensitive match, 0.8 when the query is a substring of the
label, 0.6 when the label is a substring of the query, otherwise
0.4 × (shared word count / max(query word count, label word count)) for a
non-empty token overlap, exclusion otherwise. Word sets are `Finset`s here. -/
def spec_score (query label : Str) : Option ℚ :=
  let q := lowerStr query
  let l := lowerStr label
  if q = l then some 1
  else if containsSub q l then some (8 / 10)
  else if containsSub l q then some (6 / 10)
  else
    let qs := (split_words q).toFinset
    let ls := (split_words l).toFinset
    if (qs ∩ ls).card ≠ 0 then
      some (4 / 10 * ((qs ∩ ls).card : ℚ) / (max qs.card ls.card : ℕ))
    else none

/-- Descending-score comparison used to sort candidates (KGRAG.py line 240);
ties leave the earlier element first, matching Python's stable sort with
`reverse=True`. -/
def scoreR (a b : ℕ × ℚ) : Prop := b.2 ≤ a.2

instance : DecidableRel scoreR := fun a b => inferInstanceAs (Decidable (b.2 ≤ a.2))

/-- The filtered, scored candidate list of `find_similar_entities`, in the
iteration (insertion) order of the label map. -/
def candidate_scores (query : Str) (entity_labels : List (ℕ × Str)) : List (ℕ × ℚ) :=
  entity_labels.filterMap (score_entry (lowerStr query))

/-- `find_similar_entities(query_text, ..., entity_labels, top_k)` (KGRAG.py
lines 211-241): score each labelled entity, sort descending by score with a
stable sort, return the top-k. -/
def find_similar_entities (query : Str) (entity_labels : List (ℕ × Str))
    (top_k : ℕ) : List (ℕ × ℚ) :=
  (List.insertionSort scoreR (candidate_scores query entity_labels)).take top_k

/- Persistence Layer artifacts (JSONEmbed.py `main`, lines 575-607) and the
Retrieval Engine's load step (KGRAG.py lines 90-148 and 317-321). The float32
files are modelled at the granularity of 4-byte words, one ℝ per word. -/

/-- Word count of the `.npy` version-1 header that `np.save` prepends: magic,
version and header-length fields plus the shape dictionary padded to a
64-byte boundary, 128 bytes = 32 float32 words for the arrays written here. -/
def NPY_HEADER_WORDS : ℕ := 32

/-- The header words of an `.npy` file as `np.frombuffer(..., dtype=float32)`
reinterprets them: 32 garbage float values (their numeric values are
irrelevant to every statement below; only the count matters). -/
def npy_header : List ℝ := List.replicate NPY_HEADER_WORDS 0

/-- `np.save(path, arr)` for a float32 array given by its row-major flat data:
header words followed by the data words (JSONEmbed.py lines 577-578). -/
def np_save (flat : List ℝ) : List ℝ := npy_header ++ flat

/-- `np.frombuffer(file_bytes, dtype=np.float32)` (KGRAG.py lines 95-96):
reinterpret the whole file, header included, as a flat float vector. -/
def np_frombuffer (file : List ℝ) : List ℝ := file

/-- `flat.reshape(n, d)` (KGRAG.py lines 320-321): succeeds only when the
element count matches exactly, otherwise numpy raises (modelled as `none`). -/
def np_reshape (flat : List ℝ) (n d : ℕ) : Option (List (List ℝ)) :=
  if flat.length = n * d then some (List.toChunks d flat) else none

/-- Tab code point. -/
def tabCP : ℕ := 9

/-- Decimal digit rendering with explicit fuel. -/
def natDigitsAux : ℕ → ℕ → Str
  | 0, _ => []
  | fuel + 1, n => if n < 10 then [48 + n] else natDigitsAux fuel (n / 10) ++ [48 + n % 10]

/-- Decimal rendering of a natural number, as written by Python's f-strings. -/
def natRepr (n : ℕ) : Str := natDigitsAux (n + 1) n

/-- Python's `line.strip()`: drop leading and trailing whitespace. -/
def stripCP (s : Str) : Str := ((s.dropWhile isWsCP).reverse.dropWhile isWsCP).reverse

/-- Accumulator loop behind `splitTab`; the current piece is built reversed. -/
def splitTabAux : Str → Str → List Str
  | cur, [] => [cur.reverse]
  | cur, c :: rest =>
      if c == tabCP then cur.reverse :: splitTabAux [] rest
      else splitTabAux (c :: cur) rest

/-- Python's `s.split("\t")`: split at every tab, keeping empty pieces. -/
def splitTab (s : Str) : List Str := splitTabAux [] s

/-- Python's `int(s)` restricted to the non-negative decimal forms that can
occur here: `none` models the `ValueError` raised on a non-numeric string. -/
def parseIntCP (s : Str) : Option ℕ :=
  if s.isEmpty || !(s.all (fun c => 48 ≤ c && c ≤ 57)) then none
  else some (s.foldl (fun acc c => 10 * acc + (c - 48)) 0)

/-- Header row of the entity map written by `main` (JSONEmbed.py line 586). -/
def entity_map_header : Str := strCP "idx\tURI\tlabel\ttype"

/-- One data row of the entity map (JSONEmbed.py line 591). -/
def entity_map_row (idx : ℕ) (uri label ty : Str) : Str :=
  natRepr idx ++ [tabCP] ++ uri ++ [tabCP] ++ label ++ [tabCP] ++ ty

/-- The full entity-map file written by the Persistence Layer (JSONEmbed.py
lines 585-591): header row followed by one row per entity. -/
def entity_map_lines (rows : List (ℕ × Str × Str × Str)) : List Str :=
  entity_map_header :: rows.map (fun row => entity_map_row row.1 row.2.1 row.2.2.1 row.2.2.2)

/-- Line loop of `load_entity_map` (KGRAG.py lines 107-116): strip and split
each line on tabs; when at least 3 parts are present, parse the first as an
integer — `int(parts[0])` raising `ValueError` is modelled as `Except.error`
carrying the offending part. -/
def load_entity_map_aux : List Str → Except Str (List (ℕ × Str × Str))
  | [] => Except.ok []
  | line :: rest =>
      let parts := splitTab (stripCP line)
      if 3 ≤ parts.length then
        match parseIntCP (parts.getD 0 []) with
        | none => Except.error (parts.getD 0 [])
        | some idx =>
            (load_entity_map_aux rest).map
              (fun tl => (idx, parts.getD 1 [], parts.getD 2 []) :: tl)
      else load_entity_map_aux rest

/-- `load_entity_map()` (KGRAG.py lines 101-118) applied to a file's lines. -/
def load_entity_map (lines : List Str) : Except Str (List (ℕ × Str × Str)) :=
  load_entity_map_aux lines

/- Embedding vectors and the numeric training core, over exact reals. -/

/-- A dense embedding vector. -/
abbrev Vec := List ℝ

/-- A matrix as a list of row vectors. -/
abbrev Mat := List Vec

/-- Componentwise vector addition. -/
noncomputable def vadd (a b : Vec) : Vec := List.zipWith (fun x y => x + y) a b

/-- Componentwise vector subtraction. -/
noncomputable def vsub (a b : Vec) : Vec := List.zipWith (fun x y => x - y) a b

/-- Scalar multiple of a vector. -/
noncomputable def vscale (c : ℝ) (v : Vec) : Vec := v.map (fun x => c * x)

/-- Componentwise division of a vector by a scalar. -/
noncomputable def vdiv (v : Vec) (c : ℝ) : Vec := v.map (fun x => x / c)

/-- Sum of squared entries. -/
noncomputable def normSq (v : Vec) : ℝ := (v.map (fun x => x * x)).sum

/-- Euclidean norm, `np.linalg.norm`. -/
noncomputable def vnorm (v : Vec) : ℝ := Real.sqrt (normSq v)

/-- Row access `matrix[i]`; out-of-range reads yield the empty vector. -/
def row (E : Mat) (i : ℕ) : Vec := E.getD i []

/-- `compute_score(h_emb, r_emb, t_emb)` with the default L2 norm
(JSONEmbed.py lines 297-304): the Euclidean norm of `h + r - t`. -/
noncomputable def compute_score (h r t : Vec) : ℝ := vnorm (vsub (vadd h r) t)

/-- The weighted margin-ranking loss term shared verbatim by the trainer
(JSONEmbed.py line 439) and the validator (line 353):
`max(0, margin + pos_score - neg_score) * rel_weight`. -/
noncomputable def margin_loss (relWeight margin pos neg : ℝ) : ℝ :=
  max 0 (margin + pos - neg) * relWeight

/-- The entity-row normalization of `initialize_embeddings_enhanced`
(JSONEmbed.py line 264): divide by the row norm plus 1e-10. -/
noncomputable def normalize_row (v : Vec) : Vec := vdiv v (vnorm v + 1 / 10 ^ 10)

/-- The L2 regularization coefficient `L2_LAMBDA` (JSONEmbed.py line 38). -/
noncomputable def L2_LAMBDA : ℝ := 1 / 10 ^ 4

/- Validator (`evaluate_model_margin`, JSONEmbed.py lines 307-357). -/

/-- Inner loop of the validator over one positive fact: draw `ns` simple
corruptions and sum their weighted margin losses, threading the oracle
offset. Returns the loss sum and the advanced offset. -/
noncomputable def eval_negs (σ : ℕ → ℕ) (E R : Mat) (w : ℕ → ℝ) (n : ℕ)
    (margin : ℝ) (h r t : ℕ) (pos : ℝ) : ℕ → ℕ → ℝ × ℕ
  | 0, k => (0, k)
  | j + 1, k =>
      let draw := val_neg_draw σ k h r t n
      let negScore := compute_score (row E draw.1.1) (row R draw.1.2.1) (row E draw.1.2.2)
      let rest := eval_negs σ E R w n margin h r t pos j draw.2
      (margin_loss (w r) margin pos negScore + rest.1, rest.2)

/-- Outer loop of the validator: accumulate the loss total and the pair count
over all positive facts. Returns (total, count, offset). -/
noncomputable def eval_triples (σ : ℕ → ℕ) (E R : Mat) (w : ℕ → ℝ) (n ns : ℕ)
    (margin : ℝ) : List Triple → ℕ → ℝ × ℕ × ℕ
  | [], k => (0, 0, k)
  | tr :: rest, k =>
      let pos := compute_score (row E tr.1) (row R tr.2.1) (row E tr.2.2)
      let s := eval_negs σ E R w n margin tr.1 tr.2.1 tr.2.2 pos ns k
      let tl := eval_triples σ E R w n ns margin rest s.2
      (s.1 + tl.1, ns + tl.2.1, tl.2.2)

/-- `evaluate_model_margin(triples, entity_embeddings, relation_embeddings,
relation_importance, num_entities, neg_samples, margin)` (JSONEmbed.py lines
307-357): mean weighted margin loss over all (fact, negative) pairs, with the
guarded divisor `max(count, 1)` of line 357. Returns the score and the
advanced oracle offset. -/
noncomputable def evaluate_model_margin (σ : ℕ → ℕ) (k : ℕ) (triples : List Triple)
    (E R : Mat) (w : ℕ → ℝ) (n ns : ℕ) (margin : ℝ) : ℝ × ℕ :=
  let acc := eval_triples σ E R w n ns margin triples k
  (acc.1 / (max acc.2.1 1 : ℕ), acc.2.2)


/-- The loss contribution of one (fact, negative) validation pair when the
draw happens at oracle offset `k`: the shared weighted margin formula applied
to the positive score and the score of the unchecked corruption. -/
noncomputable def val_pair_loss (σ : ℕ → ℕ) (k : ℕ) (E R : Mat) (w : ℕ → ℝ)
    (n : ℕ) (margin : ℝ) (h r t : ℕ) (pos : ℝ) : ℝ :=
  margin_loss (w r) margin pos
    (compute_score (row E (val_neg_draw σ k h r t n).1.1)
      (row R (val_neg_draw σ k h r t n).1.2.1)
      (row E (val_neg_draw σ k h r t n).1.2.2))

/- Trainer (`train_transe_enhanced`, JSONEmbed.py lines 360-515). -/

/-- One conditional unit-ball projection (JSONEmbed.py lines 472-479):
divide row `i` by the precomputed norm `c` when `c > 1`. -/
noncomputable def proj_step (E : Mat) (i : ℕ) (c : ℝ) : Mat :=
  if 1 < c then E.set i (vdiv (row E i) c) else E

/-- The gradient and L2-shrinkage phase of the update applied when a pair's
loss is positive (JSONEmbed.py lines 444-464), transcribed statement by
statement so that the aliasing of sequential numpy row updates is preserved:
positive-triple update, negative-triple update (whose gradient reads the
already-updated rows), then L2 shrinkage of the five touched rows. -/
noncomputable def grad_update (E R : Mat) (h r t hn rn tn : ℕ) (lr : ℝ) : Mat × Mat :=
  let g := vscale 2 (vsub (vadd (row E h) (row R r)) (row E t))
  let E1 := E.set h (vsub (row E h) (vscale lr g))
  let R1 := R.set r (vsub (row R r) (vscale lr g))
  let E2 := E1.set t (vadd (row E1 t) (vscale lr g))
  let gn := vscale 2 (vsub (vadd (row E2 hn) (row R1 rn)) (row E2 tn))
  let E3 := E2.set hn (vadd (row E2 hn) (vscale lr gn))
  let R2 := R1.set rn (vadd (row R1 rn) (vscale lr gn))
  let E4 := E3.set tn (vsub (row E3 tn) (vscale lr gn))
  let E5 := E4.set h (vsub (row E4 h) (vscale (lr * L2_LAMBDA) (row E4 h)))
  let E6 := E5.set t (vsub (row E5 t) (vscale (lr * L2_LAMBDA) (row E5 t)))
  let E7 := E6.set hn (vsub (row E6 hn) (vscale (lr * L2_LAMBDA) (row E6 hn)))
  let E8 := E7.set tn (vsub (row E7 tn) (vscale (lr * L2_LAMBDA) (row E7 tn)))
  let R3 := R2.set r (vsub (row R2 r) (vscale (lr * L2_LAMBDA) (row R2 r)))
  (E8, R3)

/-- The projection phase (JSONEmbed.py lines 466-479): the four norm reads all
happen before the four conditional divisions, exactly as in the source. -/
noncomputable def project_entities (E : Mat) (h t hn tn : ℕ) : Mat :=
  let nh := vnorm (row E h)
  let nt := vnorm (row E t)
  let nhn := vnorm (row E hn)
  let ntn := vnorm (row E tn)
  proj_step (proj_step (proj_step (proj_step E h nh) t nt) hn nhn) tn ntn

/-- The full in-place update applied when a pair's loss is positive
(JSONEmbed.py lines 444-479): gradient and L2 phase followed by unit-ball
re-projection of the four touched entity rows. -/
noncomputable def apply_update (E R : Mat) (h r t hn rn tn : ℕ) (lr : ℝ) : Mat × Mat :=
  let ER := grad_update E R h r t hn rn tn lr
  (project_entities ER.1 h t hn tn, ER.2)

/-- Body of the `for _ in range(neg_samples)` loop of the trainer
(JSONEmbed.py lines 429-479) for one positive fact with fixed positive score
`pos`: draw a negative sample (with collision avoidance and retry bound 100),
score it against the current matrices, and apply the gradient update exactly
when the weighted clipped loss is strictly positive. The per-batch loss
accumulator of the source is print-only and not modelled. -/
noncomputable def neg_sample_step (σ : ℕ → ℕ) (n : ℕ) (S : List Triple) (w : ℕ → ℝ)
    (margin lr : ℝ) (h r t : ℕ) (pos : ℝ) (s : Mat × Mat × ℕ) : Mat × Mat × ℕ :=
  let draw := generate_negative_sample σ s.2.2 (h, r, t) n S 100
  let neg := draw.1
  let negScore := compute_score (row s.1 neg.1) (row s.2.1 neg.2.1) (row s.1 neg.2.2)
  let loss := margin_loss (w r) margin pos negScore
  if 0 < loss then
    let ER := apply_update s.1 s.2.1 h r t neg.1 neg.2.1 neg.2.2 lr
    (ER.1, ER.2, draw.2)
  else (s.1, s.2.1, draw.2)

/-- Iterate a function a fixed number of times. -/
def iterN {α : Type} (f : α → α) : ℕ → α → α
  | 0, a => a
  | m + 1, a => iterN f m (f a)

/-- Processing of one positive fact (JSONEmbed.py lines 418-479): the positive
score is computed once from the state at fact start and reused for all `ns`
negative samples, matching the source. -/
noncomputable def fact_step (σ : ℕ → ℕ) (n : ℕ) (S : List Triple) (w : ℕ → ℝ)
    (margin lr : ℝ) (ns : ℕ) (s : Mat × Mat × ℕ) (tr : Triple) : Mat × Mat × ℕ :=
  let pos := compute_score (row s.1 tr.1) (row s.2.1 tr.2.1) (row s.1 tr.2.2)
  iterN (neg_sample_step σ n S w margin lr tr.1 tr.2.1 tr.2.2 pos) ns s

/-- Swap two list positions (out-of-range positions read the default). -/
def swapAt (l : List Triple) (i j : ℕ) : List Triple :=
  let xi := l.getD i (0, 0, 0)
  let xj := l.getD j (0, 0, 0)
  (l.set i xj).set j xi

/-- Fisher-Yates loop of `random.shuffle`: for positions `i+1` down to 1,
draw `j` uniformly in `[0, position]` (one oracle read each) and swap. -/
def shuffle_go (σ : ℕ → ℕ) : ℕ → List Triple → ℕ → List Triple × ℕ
  | 0, l, k => (l, k)
  | i + 1, l, k => shuffle_go σ i (swapAt l (i + 1) (randint σ k (i + 2))) (k + 1)

/-- `random.shuffle(train_triples)` (JSONEmbed.py line 409): in-place uniform
permutation; a list of length `m` consumes `m - 1` oracle reads. -/
def py_shuffle (σ : ℕ → ℕ) (k : ℕ) (l : List Triple) : List Triple × ℕ :=
  shuffle_go σ (l.length - 1) l k

/-- The mutable state of the training loop: the training-fact list (shuffled
in place across epochs by the source), the live matrices, the oracle offset
and the epoch counter (which drives the learning-rate decay). -/
structure TState where
  train : List Triple
  entityEmb : Mat
  relationEmb : Mat
  rng : ℕ
  epoch : ℕ

/-- One epoch of the trainer (JSONEmbed.py lines 404-495): decay the learning
rate as `lr0 / (1 + 0.01 * epoch)`, shuffle the training facts, process them
in batches of `bs` (batch boundaries do not affect the state evolution but are
kept), then score the validation set with `evaluate_model_margin` using 3
negative samples per fact (the hardcoded call of line 493). Returns the new
state and the validation score. -/
noncomputable def epoch_step (σ : ℕ → ℕ) (n : ℕ) (S : List Triple) (w : ℕ → ℝ)
    (margin lr0 : ℝ) (ns bs : ℕ) (valT : List Triple) (s : TState) : TState × ℝ :=
  let lr := lr0 / (1 + (1 / 100 : ℝ) * s.epoch)
  let shuf := py_shuffle σ s.rng s.train
  let after := (List.toChunks bs shuf.1).foldl
    (fun st batch => batch.foldl (fact_step σ n S w margin lr ns) st)
    (s.entityEmb, s.relationEmb, shuf.2)
  let ev := evaluate_model_margin σ after.2.2 valT after.1 after.2.1 w n 3 margin
  ({ train := shuf.1, entityEmb := after.1, relationEmb := after.2.1,
     rng := ev.2, epoch := s.epoch + 1 }, ev.1)

/-- Improvement test of the early-stopping check (JSONEmbed.py line 498):
strict improvement on the best-known score, which starts at `float('inf')`
(modelled by `none`). -/
noncomputable def improvesB (v : ℝ) : Option ℝ → Bool
  | none => true
  | some b => decide (v < b)

/-- The epoch loop with early stopping (JSONEmbed.py lines 396-515), generic
in the epoch body `step` and the snapshot projection `snap`: on strict
improvement, snapshot the state and reset the patience counter, otherwise
increment it; break once the counter reaches the patience `p`; return the
best snapshot (not the live state) together with the number of epochs
executed (the epoch count the source reports when stopping early). -/
noncomputable def train_go {S M : Type} (step : S → S × ℝ) (snap : S → M) (p : ℕ) :
    ℕ → S → M → Option ℝ → ℕ → M × ℕ
  | 0, _, best, _, _ => (best, 0)
  | f + 1, s, best, bs, c =>
      let sv := step s
      if improvesB sv.2 bs then
        if p = 0 then (snap sv.1, 1)
        else
          let rest := train_go step snap p f sv.1 (snap sv.1) (some sv.2) 0
          (rest.1, rest.2 + 1)
      else
        if p ≤ c + 1 then (best, 1)
        else
          let rest := train_go step snap p f sv.1 best bs (c + 1)
          (rest.1, rest.2 + 1)

/-- `train_transe_enhanced(train_triples, val_triples, entity_embeddings,
relation_embeddings, ..., num_epochs, batch_size, learning_rate, margin,
neg_samples, patience)` (JSONEmbed.py lines 360-515): `num_entities` is the
entity-matrix height (line 375), the collision set is the training-fact set
computed once before the loop (line 376), and the initial best snapshot is a
copy of the initial matrices (lines 398-399). The per-relation weight map
`w` is the precomputed `relation_importance` dictionary shared with the
validator. Returns the best snapshot and the number of epochs executed. -/
noncomputable def train_transe_enhanced (σ : ℕ → ℕ) (train valT : List Triple)
    (E0 R0 : Mat) (w : ℕ → ℝ) (cap bs : ℕ) (lr0 margin : ℝ) (ns p : ℕ) :
    (Mat × Mat) × ℕ :=
  train_go (epoch_step σ E0.length train w margin lr0 ns bs valT)
    (fun s => (s.entityEmb, s.relationEmb)) p cap
    { train := train, entityEmb := E0, relationEmb := R0, rng := 0, epoch := 0 }
    (E0, R0) none 0

/- Specification-side view of a training run, used to state the early-stopping
contract: the trajectory of states, the per-epoch validation scores, the
running minimum of scores, and the epoch achieving it. -/

/-- The state reached after a number of epochs of the generic loop. -/
def states {S : Type} (step : S → S × ℝ) (s0 : S) : ℕ → S
  | 0 => s0
  | e + 1 => (step (states step s0 e)).1

/-- The validation score produced by epoch `e` (epochs numbered from 0). -/
def vseq {S : Type} (step : S → S × ℝ) (s0 : S) (e : ℕ) : ℝ :=
  (step (states step s0 e)).2

/-- Running minimum of the score sequence over epochs `0..e`. -/
noncomputable def bestSc (v : ℕ → ℝ) : ℕ → ℝ
  | 0 => v 0
  | e + 1 => min (v (e + 1)) (bestSc v e)

/-- The epoch at which the running minimum was last strictly improved: the
best-validation epoch tracked by the early-stopping logic. -/
noncomputable def bestEp (v : ℕ → ℝ) : ℕ → ℕ
  | 0 => 0
  | e + 1 => if v (e + 1) < bestSc v e then e + 1 else bestEp v e

/-- The validation split `split_train_validation` (JSONEmbed.py lines 220-227):
shuffle, then take the first `floor(len * val_split)` facts as validation and
the rest as training. The split fraction is a rational here. -/
def split_train_validation (σ : ℕ → ℕ) (k : ℕ) (triples : List Triple)
    (valSplit : ℚ) : List Triple × List Triple :=
  let shuf := py_shuffle σ k triples
  let valSize := (Int.floor (valSplit * triples.length : ℚ)).toNat
  (shuf.1.drop valSize, shuf.1.take valSize)

/- Theorems. Shared helper lemmas come first, then one theorem per claim
(with witnesses and counterexamples where required). -/

/-- Every output of the retry loop keeps the relation and at least one of head
and tail from the input fact. -/
theorem gen_neg_aux_shape (σ : ℕ → ℕ) (h r t n : ℕ) (S : List Triple) :
    ∀ fuel k, (gen_neg_aux σ h r t n S fuel k).1.2.1 = r ∧
      ((gen_neg_aux σ h r t n S fuel k).1.1 = h ∨ (gen_neg_aux σ h r t n S fuel k).1.2.2 = t) := by
  intro fuel
  induction fuel with
  | zero =>
      intro k
      unfold gen_neg_aux
      split
      · exact ⟨rfl, Or.inr rfl⟩
      · exact ⟨rfl, Or.inl rfl⟩
  | succ m ih =>
      intro k
      unfold gen_neg_aux
      by_cases hc : coin σ k
      · by_cases hm : ((randint σ (k + 1) n, r, t) : Triple) ∈ S
        · simpa [hc, hm] using ih (k + 2)
        · simp [hc, hm]
      · by_cases hm : ((h, r, randint σ (k + 1) n) : Triple) ∈ S
        · simpa [hc, hm] using ih (k + 2)
        · simp [hc, hm]

/-- Claim C5, corrected: the Negative Sampler never touches the relation and
never corrupts head and tail at once — the output differs from the input in at
most one position — but it can coincide with the input fact outright, since
the uniformly drawn replacement may equal the replaced index. -/
theorem c5_neg_sample_at_most_one_position (σ : ℕ → ℕ) (k : ℕ) (h r t n : ℕ)
    (S : List Triple) (maxAttempts : ℕ) :
    (generate_negative_sample σ k (h, r, t) n S maxAttempts).1.2.1 = r ∧
      ((generate_negative_sample σ k (h, r, t) n S maxAttempts).1.1 = h ∨
        (generate_negative_sample σ k (h, r, t) n S maxAttempts).1.2.2 = t) :=
  gen_neg_aux_shape σ h r t n S maxAttempts k

/-- Counterexample to claim C5 as stated: with one entity and the true-fact
set `{(0,0,0)}`, every retry of `generate_negative_sample` on the fact
`(0,0,0)` collides, and the unchecked fallback returns `(0,0,0)` itself — the
output is identical to the input fact, differing in zero positions rather
than exactly one. -/
theorem c5_counterexample :
    (generate_negative_sample (fun _ => 0) 0 (0, 0, 0) 1 [(0, 0, 0)] 100).1 = (0, 0, 0) ∧
      ¬(((generate_negative_sample (fun _ => 0) 0 (0, 0, 0) 1 [(0, 0, 0)] 100).1.1 ≠ 0 ∧
          (generate_negative_sample (fun _ => 0) 0 (0, 0, 0) 1 [(0, 0, 0)] 100).1.2.2 = 0) ∨
        ((generate_negative_sample (fun _ => 0) 0 (0, 0, 0) 1 [(0, 0, 0)] 100).1.1 = 0 ∧
          (generate_negative_sample (fun _ => 0) 0 (0, 0, 0) 1 [(0, 0, 0)] 100).1.2.2 ≠ 0)) := by
  decide

/-- Claim C9, confirmed: every record retained by the Fact Loader's filter
cascade has an allow-listed predicate — in particular neither the
label-assignment nor the type-assertion predicate — and a non-literal object. -/
theorem c9_kept_triples_invariant (recs : List Record) (rec : Record)
    (hmem : rec ∈ kept_triples recs) :
    rec.2.1 ∈ KEEP_PREDICATES ∧ rec.2.1 ≠ rdfs_label_uri ∧
      rec.2.1 ≠ rdf_type_uri ∧ is_literal rec.2.2 = false := by
  have hk := (List.mem_filter.mp hmem).2
  simp only [keep_record, Bool.and_eq_true, Bool.not_eq_true', beq_eq_false_iff_ne, ne_eq] at hk
  exact ⟨List.elem_iff.mp hk.2, hk.1.1.1, hk.1.1.2, hk.1.2⟩

/-- Witness for C9 at a concrete retained record. -/
theorem c9_witness :
    (strCP "http://tool4boxology.org/E1", strCP "http://tool4boxology.org/hasInput",
        strCP "http://tool4boxology.org/E2").2.1 ∈ KEEP_PREDICATES ∧
      (strCP "http://tool4boxology.org/E1", strCP "http://tool4boxology.org/hasInput",
        strCP "http://tool4boxology.org/E2").2.1 ≠ rdfs_label_uri ∧
      (strCP "http://tool4boxology.org/E1", strCP "http://tool4boxology.org/hasInput",
        strCP "http://tool4boxology.org/E2").2.1 ≠ rdf_type_uri ∧
      is_literal (strCP "http://tool4boxology.org/E1", strCP "http://tool4boxology.org/hasInput",
        strCP "http://tool4boxology.org/E2").2.2 = false :=
  c9_kept_triples_invariant
    [(strCP "http://tool4boxology.org/E1", strCP "http://tool4boxology.org/hasInput",
      strCP "http://tool4boxology.org/E2")] _ (by decide)

/-- Claim C10, confirmed: the Validator's mean uses the guarded divisor
`max(count, 1)`, so it returns 0.0 on an empty fact set instead of failing,
the divisor is positive for every input, and the validation split of a fact
list shorter than 10 rounds to an empty validation set. -/
theorem c10_validator_empty_safe :
    (∀ (σ : ℕ → ℕ) (k : ℕ) (E R : Mat) (w : ℕ → ℝ) (n ns : ℕ) (margin : ℝ),
        (evaluate_model_margin σ k [] E R w n ns margin).1 = 0) ∧
    (∀ (σ : ℕ → ℕ) (k : ℕ) (ts : List Triple) (E R : Mat) (w : ℕ → ℝ) (n ns : ℕ) (margin : ℝ),
        0 < max (eval_triples σ E R w n ns margin ts k).2.1 1) ∧
    (∀ (σ : ℕ → ℕ) (k : ℕ) (ts : List Triple), ts.length < 10 →
        (split_train_validation σ k ts (1 / 10)).2 = []) := by
  refine ⟨?_, ?_, ?_⟩
  · intro σ k E R w n ns margin
    simp [evaluate_model_margin, eval_triples]
  · intro σ k ts E R w n ns margin
    exact lt_of_lt_of_le Nat.one_pos (le_max_right _ _)
  · intro σ k ts hlen
    have hfloor : Int.floor ((1 / 10 : ℚ) * ts.length) = 0 := by
      rw [Int.floor_eq_zero_iff, Set.mem_Ico]
      refine ⟨by positivity, ?_⟩
      have h10 : (ts.length : ℚ) < 10 := by exact_mod_cast hlen
      linarith
    rw [one_div] at hfloor
    simp [split_train_validation, hfloor]

/-- Witness for C10 at a concrete one-fact list. -/
theorem c10_witness :
    (split_train_validation (fun _ => 0) 0 [(0, 0, 0)] (1 / 10)).2 = [] :=
  c10_validator_empty_safe.2.2 (fun _ => 0) 0 [(0, 0, 0)] (by decide)

/-- Claim C1, code bug: the Persistence Layer writes the embedding matrices
with `np.save`, which prepends a 32-word `.npy` header, while the Retrieval
Engine reads the raw file with `np.frombuffer` and reshapes to `(count, D)` —
the element count never matches, so the reshape of KGRAG.py lines 320-321
always raises. Independently, `load_entity_map` parses every line with at
least 3 tab-separated parts, including the header row `idx URI label type`
that the writer itself emits, so `int('idx')` raises `ValueError` before the
reshape is even reached. The write-then-read round trip can never succeed. -/
theorem c1_load_step_fails :
    (∀ (flat : List ℝ) (n d : ℕ), flat.length = n * d →
        np_reshape (np_frombuffer (np_save flat)) n d = none) ∧
    (∀ rows, (load_entity_map (entity_map_lines rows)).isOk = false) := by
  constructor
  · intro flat n d hlen
    simp only [np_reshape, np_frombuffer, np_save, npy_header, NPY_HEADER_WORDS,
      List.length_append, List.length_replicate, hlen]
    rw [if_neg]
    omega
  · intro rows
    have h1 : splitTab (stripCP entity_map_header) =
        [strCP "idx", strCP "URI", strCP "label", strCP "type"] := by decide
    have h2 : parseIntCP (strCP "idx") = none := by decide
    show (load_entity_map_aux (entity_map_header :: _)).isOk = false
    simp [load_entity_map_aux, h1, h2, Except.isOk, Except.toBool]

/-- Witness for C1 at concrete artifacts. -/
theorem c1_witness :
    np_reshape (np_frombuffer (np_save [])) 0 0 = none ∧
      (load_entity_map (entity_map_lines [])).isOk = false :=
  ⟨c1_load_step_fails.1 [] 0 0 rfl, c1_load_step_fails.2 []⟩

/-- Counterexample to claim C4 as stated: on the same oracle stream, the
Trainer's negative sampler (collision avoidance against the true-fact set,
with retries) and the Validator's negative draw (a single unchecked
corruption) produce different negative facts — the Validator accepts the
corruption `(1,0,0)` even though it is a true fact, while the Trainer rejects
it and retries. The two negative-sampling procedures are not the same. -/
theorem c4_counterexample :
    (val_neg_draw (fun i => [0, 1, 1, 1].getD i 0) 0 0 0 0 2).1 ≠
      (generate_negative_sample (fun i => [0, 1, 1, 1].getD i 0) 0 (0, 0, 0) 2
        [(1, 0, 0)] 100).1 := by
  decide

/-- Counterexample to claim C6 as stated: with an empty training fact set the
Trainer does not raise any fatal error — the run completes normally, returning
the (unchanged) initial snapshot after its first epoch triggers the
always-improving first validation check. -/
theorem c6_counterexample :
    train_transe_enhanced (fun _ => 0) [] [] [[(0 : ℝ)]] [[(0 : ℝ)]] (fun _ => 1)
      1 256 (1 / 1000) 1 5 30 = (([[(0 : ℝ)]], [[(0 : ℝ)]]), 1) := by
  rfl

/-- Chunking an empty list yields no batches. -/
theorem toChunks_nil (bs : ℕ) : List.toChunks bs ([] : List Triple) = [] := by
  cases bs <;> rfl

/-- Invariant transport through the early-stopping loop: if the epoch body
preserves a state predicate, the snapshot maps it to a result predicate, and
both hold initially, then the returned best snapshot satisfies the result
predicate. -/
theorem train_go_fst_inv {S M : Type} (step : S → S × ℝ) (snap : S → M) (p : ℕ)
    (Q : S → Prop) (QM : M → Prop)
    (hstep : ∀ s, Q s → Q (step s).1)
    (hsnap : ∀ s, Q s → QM (snap s)) :
    ∀ (f : ℕ) (s : S) (best : M) (bsc : Option ℝ) (c : ℕ), Q s → QM best →
      QM (train_go step snap p f s best bsc c).1 := by
  intro f
  induction f with
  | zero =>
      intro s best bsc c _ hB
      simpa [train_go] using hB
  | succ f ih =>
      intro s best bsc c hQ hB
      simp only [train_go]
      by_cases himp : improvesB (step s).2 bsc = true
      · simp only [himp, if_true]
        by_cases hp : p = 0
        · simp only [hp, if_true]
          exact hsnap _ (hstep s hQ)
        · rw [if_neg hp]
          exact ih (step s).1 (snap (step s).1) (some (step s).2) 0 (hstep s hQ)
            (hsnap _ (hstep s hQ))
      · rw [if_neg himp]
        by_cases hpc : p ≤ c + 1
        · rw [if_pos hpc]
          exact hB
        · rw [if_neg hpc]
          exact ih (step s).1 best bsc (c + 1) (hstep s hQ) hB

/-- An epoch over an empty training list leaves the matrices untouched and the
training list empty (only the oracle offset and epoch counter advance). -/
theorem epoch_step_empty (σ : ℕ → ℕ) (n : ℕ) (S : List Triple) (w : ℕ → ℝ)
    (margin lr0 : ℝ) (ns bs : ℕ) (valT : List Triple) (s : TState)
    (htrain : s.train = []) :
    (epoch_step σ n S w margin lr0 ns bs valT s).1.train = [] ∧
      (epoch_step σ n S w margin lr0 ns bs valT s).1.entityEmb = s.entityEmb ∧
      (epoch_step σ n S w margin lr0 ns bs valT s).1.relationEmb = s.relationEmb := by
  simp [epoch_step, htrain, py_shuffle, shuffle_go, toChunks_nil]

/-- Claim C6, corrected: on an empty training fact set the Trainer raises
nothing — every epoch processes zero batches (the average-loss division is
explicitly guarded in the source), the loop runs to its stopping condition,
and the returned snapshot is exactly the initial pair of matrices. The
training loop itself has no failure path. -/
theorem c6_empty_train_completes (σ : ℕ → ℕ) (valT : List Triple) (E0 R0 : Mat)
    (w : ℕ → ℝ) (cap bs : ℕ) (lr0 margin : ℝ) (ns p : ℕ) :
    (train_transe_enhanced σ [] valT E0 R0 w cap bs lr0 margin ns p).1 = (E0, R0) := by
  unfold train_transe_enhanced
  refine train_go_fst_inv _ _ p
    (fun s => s.train = [] ∧ s.entityEmb = E0 ∧ s.relationEmb = R0)
    (fun m => m = (E0, R0)) ?_ ?_ cap _ _ none 0 ⟨rfl, rfl, rfl⟩ rfl
  · intro s hs
    obtain ⟨h1, h2, h3⟩ := epoch_step_empty σ E0.length [] w margin lr0 ns bs valT s hs.1
    exact ⟨h1, h2.trans hs.2.1, h3.trans hs.2.2⟩
  · intro s hs
    simp [hs.2.1, hs.2.2]

/-- Characterization of the lexicographic comparison on a cons pair. -/
theorem lexLe_cons_iff (x y : ℕ) (as bs : Str) :
    lexLe (x :: as) (y :: bs) = true ↔ x < y ∨ (x = y ∧ lexLe as bs = true) := by
  simp only [lexLe]
  split_ifs with h1 h2
  · simp [h1]
  · exact iff_of_false (by simp) (by rintro (h | ⟨rfl, -⟩) <;> omega)
  · have hxy : x = y := le_antisymm (not_lt.mp h2) (not_lt.mp h1)
    subst hxy
    simp

/-- The lexicographic comparison is reflexive. -/
theorem lexLe_refl (a : Str) : lexLe a a = true := by
  induction a with
  | nil => rfl
  | cons x t ih => simp [lexLe_cons_iff, ih]

/-- The lexicographic comparison is total. -/
theorem lexLe_total (a b : Str) : lexR a b ∨ lexR b a := by
  unfold lexR
  induction a generalizing b with
  | nil => exact Or.inl rfl
  | cons x as ih =>
      cases b with
      | nil => exact Or.inr rfl
      | cons y bs =>
          rcases lt_trichotomy x y with hxy | hxy | hxy
          · exact Or.inl ((lexLe_cons_iff x y as bs).mpr (Or.inl hxy))
          · subst hxy
            rcases ih bs with h | h
            · exact Or.inl ((lexLe_cons_iff x x as bs).mpr (Or.inr ⟨rfl, h⟩))
            · exact Or.inr ((lexLe_cons_iff x x bs as).mpr (Or.inr ⟨rfl, h⟩))
          · exact Or.inr ((lexLe_cons_iff y x bs as).mpr (Or.inl hxy))

/-- The lexicographic comparison is transitive. -/
theorem lexLe_trans (a b c : Str) (hab : lexR a b) (hbc : lexR b c) : lexR a c := by
  unfold lexR at *
  induction a generalizing b c with
  | nil => rfl
  | cons x as ih =>
      cases b with
      | nil => simp [lexLe] at hab
      | cons y bs =>
          cases c with
          | nil => simp [lexLe] at hbc
          | cons z cs =>
              rw [lexLe_cons_iff] at hab hbc ⊢
              rcases hab with hxy | ⟨rfl, hab2⟩
              · rcases hbc with hyz | ⟨rfl, -⟩
                · exact Or.inl (lt_trans hxy hyz)
                · exact Or.inl hxy
              · rcases hbc with hyz | ⟨rfl, hbc2⟩
                · exact Or.inl hyz
                · exact Or.inr ⟨rfl, ih bs cs hab2 hbc2⟩

/-- The lexicographic comparison is antisymmetric. -/
theorem lexLe_antisymm (a b : Str) (hab : lexR a b) (hba : lexR b a) : a = b := by
  unfold lexR at *
  induction a generalizing b with
  | nil =>
      cases b with
      | nil => rfl
      | cons y bs => simp [lexLe] at hba
  | cons x as ih =>
      cases b with
      | nil => simp [lexLe] at hab
      | cons y bs =>
          rw [lexLe_cons_iff] at hab hba
          rcases hab with hxy | ⟨rfl, hab2⟩
          · rcases hba with hyx | ⟨rfl, -⟩
            · omega
            · omega
          · rcases hba with hyx | ⟨-, hba2⟩
            · omega
            · rw [ih bs hab2 hba2]

/-- The strict order is irreflexive and incompatible with the reverse
non-strict order. -/
theorem lexLt_asymm (a b : Str) (h : lexLt a b) : ¬lexLt b a :=
  fun hba => h.2 hba.1

/-- The sorted surviving-URI list is sorted under `lexR`. -/
theorem sorted_entities_sorted (recs : List Record) :
    List.Sorted lexR (sorted_entities recs) := by
  haveI : IsTotal Str lexR := ⟨lexLe_total⟩
  haveI : IsTrans Str lexR := ⟨lexLe_trans⟩
  exact List.sorted_insertionSort lexR _

/-- The sorted surviving-URI list has no duplicates. -/
theorem sorted_entities_nodup (recs : List Record) :
    (sorted_entities recs).Nodup :=
  ((List.perm_insertionSort lexR _).nodup_iff).mpr (List.nodup_dedup _)

/-- The entity-occurrence accumulator is the flattened per-record pair list. -/
theorem record_entities_eq (recs : List Record) :
    record_entities recs =
      ((kept_triples recs).map (fun rec => [rec.1, rec.2.2])).flatten := by
  unfold record_entities
  induction kept_triples recs with
  | nil => rfl
  | cons rec t ih => simp [ih]

/-- Permuting the input records permutes the surviving entity occurrences. -/
theorem record_entities_perm (recs1 recs2 : List Record) (hperm : recs1.Perm recs2) :
    (record_entities recs1).Perm (record_entities recs2) := by
  rw [record_entities_eq, record_entities_eq]
  exact ((hperm.filter keep_record).map _).flatten

/-- The sorted surviving-URI list depends only on the multiset of records. -/
theorem sorted_entities_eq_of_perm (recs1 recs2 : List Record)
    (hperm : recs1.Perm recs2) : sorted_entities recs1 = sorted_entities recs2 := by
  haveI : IsAntisymm Str lexR := ⟨lexLe_antisymm⟩
  refine List.eq_of_perm_of_sorted ?_ (sorted_entities_sorted recs1) (sorted_entities_sorted recs2)
  exact (List.perm_insertionSort lexR _).trans
    (((record_entities_perm recs1 recs2 hperm).dedup).trans
      (List.perm_insertionSort lexR _).symm)

/-- Elements listed by `withIdx` come from the underlying list. -/
theorem withIdx_mem (l : List Str) : ∀ j p, p ∈ withIdx j l → p.1 ∈ l := by
  induction l with
  | nil => intro j p hp; cases hp
  | cons a t ih =>
      intro j p hp
      rcases hp with _ | hp
      · exact List.mem_cons_self a t
      · exact List.mem_cons_of_mem a (ih (j + 1) p (by assumption))

/-- In a strictly sorted list, the position paired by `withIdx` equals the
count of strictly smaller elements. -/
theorem withIdx_count (l : List Str) (hp : List.Pairwise lexLt l) :
    ∀ j p, p ∈ withIdx j l → (l.countP (fun u => decide (lexLt u p.1))) + j = p.2 := by
  induction l with
  | nil => intro j p hmem; cases hmem
  | cons a t ih =>
      intro j p hmem
      have hpa : ∀ b ∈ t, lexLt a b := fun b hb => List.rel_of_pairwise_cons hp hb
      rcases hmem with _ | hmem
      · have hz : t.countP (fun u => decide (lexLt u a)) = 0 := by
          rw [List.countP_eq_zero]
          intro u hu hlt
          exact lexLt_asymm a u (hpa u hu) (of_decide_eq_true hlt)
        dsimp only
        rw [List.countP_cons, hz]
        simp [lexLt, lexLe_refl]
      · have hmem2 : p ∈ withIdx (j + 1) t := by assumption
        have hrec := ih hp.of_cons (j + 1) p hmem2
        have hap : lexLt a p.1 := hpa p.1 (withIdx_mem t (j + 1) p hmem2)
        rw [List.countP_cons]
        simp only [hap, decide_eq_true_eq, if_pos]
        omega

/-- The sorted surviving-URI list is strictly sorted. -/
theorem sorted_entities_pairwise_lt (recs : List Record) :
    List.Pairwise lexLt (sorted_entities recs) := by
  have hs := sorted_entities_sorted recs
  have hn := sorted_entities_nodup recs
  exact ((List.Pairwise.and hs hn).imp (fun hab =>
    ⟨hab.1, fun hba => hab.2 (lexLe_antisymm _ _ hab.1 hba)⟩))

/-- Claim C8, confirmed: the entity-index map depends only on the multiset of
input records — any reordering of the input lines yields the identical map —
and each surviving entity's index equals the number of distinct surviving
URIs that precede it lexicographically, i.e. its rank in the lexicographic
sort. -/
theorem c8_index_assignment_deterministic :
    (∀ recs1 recs2 : List Record, recs1.Perm recs2 →
        entity_to_idx recs1 = entity_to_idx recs2) ∧
    (∀ (recs : List Record) (e : Str) (i : ℕ), (e, i) ∈ entity_to_idx recs →
        i = (record_entities recs).dedup.countP (fun u => decide (lexLt u e))) := by
  constructor
  · intro recs1 recs2 hperm
    unfold entity_to_idx
    rw [sorted_entities_eq_of_perm recs1 recs2 hperm]
  · intro recs e i hmem
    have hcount := withIdx_count (sorted_entities recs)
      (sorted_entities_pairwise_lt recs) 0 (e, i) hmem
    simp only [sorted_entities] at hcount
    have hpermcount := (List.perm_insertionSort lexR (record_entities recs).dedup).countP_eq
      (fun u => decide (lexLt u e))
    simp only [entity_to_idx] at hmem
    omega

/-- Witness for C8: a concrete two-record reordering yields the same map, and
a concrete surviving entity's index equals its rank. -/
theorem c8_witness :
    entity_to_idx [(strCP "sA", strCP "pA", strCP "oA"), (strCP "sB", strCP "pB", strCP "oB")]
        = entity_to_idx [(strCP "sB", strCP "pB", strCP "oB"), (strCP "sA", strCP "pA", strCP "oA")] ∧
      (1 : ℕ) = (record_entities
          [(strCP "http://x#B", strCP "http://tool4boxology.org/hasInput",
            strCP "http://x#A")]).dedup.countP
        (fun u => decide (lexLt u (strCP "http://x#B"))) :=
  ⟨c8_index_assignment_deterministic.1 _ _ (List.Perm.swap _ _ _),
    c8_index_assignment_deterministic.2
      [(strCP "http://x#B", strCP "http://tool4boxology.org/hasInput", strCP "http://x#A")]
      (strCP "http://x#B") 1 (by decide)⟩

/-- Deduplication does not change the underlying finite set. -/
theorem dedup_toFinset (l : List Str) : l.dedup.toFinset = l.toFinset := by
  ext a
  simp

/-- The word-overlap count computed by `find_similar_entities` on
deduplicated word lists equals the cardinality of the intersection of the
corresponding word sets. -/
theorem overlap_eq (qw lw : List Str) :
    (qw.dedup.filter (fun w => lw.dedup.contains w)).length
      = (qw.toFinset ∩ lw.toFinset).card := by
  have hnd : (qw.dedup.filter (fun w => lw.dedup.contains w)).Nodup :=
    (List.nodup_dedup qw).filter _
  rw [← List.toFinset_card_of_nodup hnd, List.toFinset_filter, dedup_toFinset]
  have hcong : Finset.filter (fun x => (lw.dedup.contains x) = true) qw.toFinset
      = Finset.filter (fun x => x ∈ lw.toFinset) qw.toFinset := by
    apply Finset.filter_congr
    intro x _
    simp [List.elem_iff]
  rw [hcong, Finset.filter_mem_eq_inter]

/-- The per-entity score computed by the Retrieval Engine coincides with the
specification-side piecewise scoring formula. -/
theorem score_entry_eq_spec (q lab : Str) (i : ℕ) :
    score_entry (lowerStr q) (i, lab) = Option.map (fun sc => (i, sc)) (spec_score q lab) := by
  have hov := overlap_eq (split_words (lowerStr q)) (split_words (lowerStr lab))
  have hq := List.card_toFinset (split_words (lowerStr q))
  have hl := List.card_toFinset (split_words (lowerStr lab))
  simp only [score_entry, spec_score]
  split_ifs with h1 h2 h3 h4 h5 <;>
    simp only [Option.map_some', Option.map_none'] <;>
    try rfl
  · rw [hov, ← hq, ← hl]
  · exfalso
    rw [hov] at h4
    omega
  · exfalso
    rw [hov] at h4
    omega

/-- An exact case-insensitive match scores exactly 1.0. -/
theorem spec_score_exact (q lab : Str) (h : lowerStr q = lowerStr lab) :
    spec_score q lab = some 1 := by
  unfold spec_score
  rw [if_pos h]

/-- Every candidate score is at most 1, and strictly below 1 unless the match
is exact: the four score classes are 1, 0.8, 0.6 and at most 0.4. -/
theorem spec_score_le_one (q lab : Str) (sc : ℚ) (h : spec_score q lab = some sc) :
    sc ≤ 1 ∧ (lowerStr q ≠ lowerStr lab → sc < 1) := by
  simp only [spec_score] at h
  split_ifs at h with h1 h2 h3 h4
  · obtain rfl := (Option.some.inj h).symm
    exact ⟨le_refl 1, fun hne => absurd h1 hne⟩
  · obtain rfl := (Option.some.inj h).symm
    norm_num
  · obtain rfl := (Option.some.inj h).symm
    norm_num
  · obtain rfl := (Option.some.inj h).symm
    have hc1 : 1 ≤ ((split_words (lowerStr q)).toFinset ∩ (split_words (lowerStr lab)).toFinset).card :=
      Nat.one_le_iff_ne_zero.mpr h4
    have hcm : ((split_words (lowerStr q)).toFinset ∩ (split_words (lowerStr lab)).toFinset).card
        ≤ max (split_words (lowerStr q)).toFinset.card (split_words (lowerStr lab)).toFinset.card :=
      le_trans (Finset.card_le_card Finset.inter_subset_left) (le_max_left _ _)
    have hmpos : (0 : ℚ) <
        (max (split_words (lowerStr q)).toFinset.card (split_words (lowerStr lab)).toFinset.card : ℕ) := by
      exact_mod_cast lt_of_lt_of_le (Nat.lt_of_lt_of_le Nat.zero_lt_one hc1) hcm
    have hdiv : (((split_words (lowerStr q)).toFinset ∩ (split_words (lowerStr lab)).toFinset).card : ℚ)
        / ((max (split_words (lowerStr q)).toFinset.card (split_words (lowerStr lab)).toFinset.card : ℕ) : ℚ)
        ≤ 1 := by
      rw [div_le_one hmpos]
      exact_mod_cast hcm
    have hlt : 4 / 10 *
        (((split_words (lowerStr q)).toFinset ∩ (split_words (lowerStr lab)).toFinset).card : ℚ)
        / ((max (split_words (lowerStr q)).toFinset.card (split_words (lowerStr lab)).toFinset.card : ℕ) : ℚ)
        < 1 := by
      rw [mul_div_assoc]
      nlinarith [hdiv, hmpos]
    exact ⟨le_of_lt hlt, fun _ => hlt⟩

/-- Claim C7, confirmed: the Retrieval Engine's candidate scoring follows the
specified piecewise formula (1.0 exact, 0.8 query-in-label, 0.6
label-in-query, 0.4 × overlap fraction on non-empty token overlap, exclusion
otherwise); an exact case-insensitive match scores 1.0 and strictly outranks
every non-exact match; and the returned list is the top-k prefix of the
stably sorted candidates — descending in score, ties kept in label-map
insertion order. -/
theorem c7_find_similar_entities_spec :
    (∀ (q lab : Str) (i : ℕ),
        score_entry (lowerStr q) (i, lab) = Option.map (fun sc => (i, sc)) (spec_score q lab)) ∧
    (∀ q lab : Str, lowerStr q = lowerStr lab → spec_score q lab = some 1) ∧
    (∀ (q lab : Str) (sc : ℚ), spec_score q lab = some sc →
        sc ≤ 1 ∧ (lowerStr q ≠ lowerStr lab → sc < 1)) ∧
    (∀ (q : Str) (labels : List (ℕ × Str)) (k : ℕ),
        List.Sorted scoreR (find_similar_entities q labels k)) ∧
    (∀ (q : Str) (labels : List (ℕ × Str)) (a b : ℕ × ℚ), a.2 = b.2 →
        [a, b].Sublist (candidate_scores q labels) →
        [a, b].Sublist (List.insertionSort scoreR (candidate_scores q labels))) ∧
    (∀ (q : Str) (labels : List (ℕ × Str)) (k : ℕ),
        find_similar_entities q labels k
            = (List.insertionSort scoreR (candidate_scores q labels)).take k ∧
          (find_similar_entities q labels k).length ≤ k) := by
  haveI : IsTotal (ℕ × ℚ) scoreR := ⟨fun a b => le_total b.2 a.2⟩
  haveI : IsTrans (ℕ × ℚ) scoreR := ⟨fun a b c hab hbc => le_trans hbc hab⟩
  refine ⟨score_entry_eq_spec, spec_score_exact, spec_score_le_one, ?_, ?_, ?_⟩
  · intro q labels k
    exact List.Pairwise.sublist (List.take_sublist k _)
      (List.sorted_insertionSort scoreR (candidate_scores q labels))
  · intro q labels a b hab hsub
    exact List.pair_sublist_insertionSort (le_of_eq hab.symm) hsub
  · intro q labels k
    exact ⟨rfl, by simp [find_similar_entities] ⟩ 

/-- Witness for C7: the concrete query sensor matches the label Sensor
case-insensitively and scores exactly 1.0. -/
theorem c7_witness : spec_score (strCP "sensor") (strCP "Sensor") = some 1 :=
  c7_find_similar_entities_spec.2.1 (strCP "sensor") (strCP "Sensor") (by decide)

/-- The squared norm is a sum of squares, hence nonnegative. -/
theorem normSq_nonneg (v : Vec) : 0 ≤ normSq v := by
  induction v with
  | nil => simp [normSq]
  | cons x tl ih =>
      simp only [normSq, List.map_cons, List.sum_cons] at ih ⊢
      have hx := mul_self_nonneg x
      linarith

/-- Dividing every entry by a scalar divides the squared norm by its square. -/
theorem normSq_vdiv (v : Vec) (c : ℝ) : normSq (vdiv v c) = normSq v / c ^ 2 := by
  induction v with
  | nil => simp [normSq, vdiv]
  | cons x tl ih =>
      simp only [normSq, vdiv, List.map_cons, List.sum_cons] at ih ⊢
      rw [ih]
      ring

/-- Setting one row leaves the other rows unchanged. -/
theorem row_set_ne (E : Mat) (i j : ℕ) (v : Vec) (hij : i ≠ j) :
    row (E.set i v) j = row E j := by
  simp [row, List.getD_eq_getElem?_getD, List.getElem?_set_ne hij]

/-- Reading back an in-range row that was just set. -/
theorem row_set_self (E : Mat) (i : ℕ) (v : Vec) (hlt : i < E.length) :
    row (E.set i v) i = v := by
  simp [row, List.getD_eq_getElem?_getD, List.getElem?_set_self hlt]

/-- A conditional projection never increases any row's squared norm. -/
theorem proj_step_le (E : Mat) (i : ℕ) (c : ℝ) (j : ℕ) :
    normSq (row (proj_step E i c) j) ≤ normSq (row E j) := by
  unfold proj_step
  by_cases hc : 1 < c
  · rw [if_pos hc]
    by_cases hij : i = j
    · subst hij
      by_cases hlen : i < E.length
      · rw [row_set_self _ _ _ hlen, normSq_vdiv]
        exact div_le_self (normSq_nonneg _) (one_le_pow₀ (le_of_lt hc))
      · rw [List.set_eq_of_length_le (le_of_not_lt hlen)]
    · rw [row_set_ne _ _ _ _ hij]
  · rw [if_neg hc]

/-- A conditional projection preserves the matrix height. -/
theorem proj_step_length (E : Mat) (i : ℕ) (c : ℝ) :
    (proj_step E i c).length = E.length := by
  unfold proj_step
  split <;> simp

/-- A conditional projection leaves untouched rows unchanged. -/
theorem proj_step_ne (E : Mat) (i : ℕ) (c : ℝ) (j : ℕ) (hij : i ≠ j) :
    row (proj_step E i c) j = row E j := by
  unfold proj_step
  split
  · exact row_set_ne _ _ _ _ hij
  · rfl

/-- A projection step whose cutoff norm was read from the pre-projection
matrix leaves its own row inside the unit ball, provided the row has only
shrunk since the norm was read. -/
theorem proj_step_own (E0 E : Mat) (i : ℕ) (hlen : E.length = E0.length)
    (hmono : normSq (row E i) ≤ normSq (row E0 i)) :
    normSq (row (proj_step E i (vnorm (row E0 i))) i) ≤ 1 := by
  have hsq : (vnorm (row E0 i)) ^ 2 = normSq (row E0 i) :=
    Real.sq_sqrt (normSq_nonneg _)
  by_cases hc : 1 < vnorm (row E0 i)
  · have hpos : 1 < normSq (row E0 i) := by nlinarith
    have hlt : i < E.length := by
      by_contra hge
      push_neg at hge
      have hnone : row E0 i = [] := by
        simp [row, List.getD_eq_getElem?_getD, List.getElem?_eq_none (by omega : E0.length ≤ i)]
      rw [hnone] at hpos
      simp [normSq] at hpos
      linarith
    unfold proj_step
    rw [if_pos hc, row_set_self _ _ _ hlt, normSq_vdiv, hsq, div_le_one (by linarith)]
    exact hmono
  · unfold proj_step
    rw [if_neg hc]
    have hub : normSq (row E0 i) ≤ 1 := by
      have h3 : 0 ≤ vnorm (row E0 i) := Real.sqrt_nonneg _
      nlinarith [not_lt.mp hc]
    linarith

/-- After the projection phase, each of the four touched rows has squared norm
at most 1, whatever values the gradient phase produced and however the four
indices alias each other. -/
theorem project_entities_touched (E : Mat) (h t hn tn i : ℕ)
    (hi : i = h ∨ i = t ∨ i = hn ∨ i = tn) :
    normSq (row (project_entities E h t hn tn) i) ≤ 1 := by
  unfold project_entities
  rcases hi with rfl | rfl | rfl | rfl
  · calc normSq (row (proj_step (proj_step (proj_step (proj_step E i (vnorm (row E i))) t
          (vnorm (row E t))) hn (vnorm (row E hn))) tn (vnorm (row E tn))) i)
        ≤ normSq (row (proj_step (proj_step (proj_step E i (vnorm (row E i))) t
          (vnorm (row E t))) hn (vnorm (row E hn))) i) := proj_step_le _ _ _ _
      _ ≤ normSq (row (proj_step (proj_step E i (vnorm (row E i))) t (vnorm (row E t))) i) :=
          proj_step_le _ _ _ _
      _ ≤ normSq (row (proj_step E i (vnorm (row E i))) i) := proj_step_le _ _ _ _
      _ ≤ 1 := proj_step_own E E i rfl (le_refl _)
  · calc normSq (row (proj_step (proj_step (proj_step (proj_step E h (vnorm (row E h))) i
          (vnorm (row E i))) hn (vnorm (row E hn))) tn (vnorm (row E tn))) i)
        ≤ normSq (row (proj_step (proj_step (proj_step E h (vnorm (row E h))) i
          (vnorm (row E i))) hn (vnorm (row E hn))) i) := proj_step_le _ _ _ _
      _ ≤ normSq (row (proj_step (proj_step E h (vnorm (row E h))) i (vnorm (row E i))) i) :=
          proj_step_le _ _ _ _
      _ ≤ 1 := proj_step_own E (proj_step E h (vnorm (row E h))) i
          (proj_step_length _ _ _) (proj_step_le _ _ _ _)
  · calc normSq (row (proj_step (proj_step (proj_step (proj_step E h (vnorm (row E h))) t
          (vnorm (row E t))) i (vnorm (row E i))) tn (vnorm (row E tn))) i)
        ≤ normSq (row (proj_step (proj_step (proj_step E h (vnorm (row E h))) t
          (vnorm (row E t))) i (vnorm (row E i))) i) := proj_step_le _ _ _ _
      _ ≤ 1 := proj_step_own E (proj_step (proj_step E h (vnorm (row E h))) t (vnorm (row E t))) i
          ((proj_step_length _ _ _).trans (proj_step_length _ _ _))
          (le_trans (proj_step_le _ _ _ _) (proj_step_le _ _ _ _))
  · exact proj_step_own E
      (proj_step (proj_step (proj_step E h (vnorm (row E h))) t (vnorm (row E t))) hn
        (vnorm (row E hn))) i
      (((proj_step_length _ _ _).trans (proj_step_length _ _ _)).trans (proj_step_length _ _ _))
      (le_trans (proj_step_le _ _ _ _) (le_trans (proj_step_le _ _ _ _) (proj_step_le _ _ _ _)))

/-- The projection phase leaves untouched rows unchanged. -/
theorem project_entities_ne (E : Mat) (h t hn tn i : ℕ)
    (hih : i ≠ h) (hit : i ≠ t) (hihn : i ≠ hn) (hitn : i ≠ tn) :
    row (project_entities E h t hn tn) i = row E i := by
  unfold project_entities
  rw [proj_step_ne _ _ _ _ (Ne.symm hitn), proj_step_ne _ _ _ _ (Ne.symm hihn),
    proj_step_ne _ _ _ _ (Ne.symm hit), proj_step_ne _ _ _ _ (Ne.symm hih)]

/-- The gradient phase modifies only the four touched entity rows. -/
theorem grad_update_ne (E R : Mat) (h r t hn rn tn : ℕ) (lr : ℝ) (i : ℕ)
    (hih : i ≠ h) (hit : i ≠ t) (hihn : i ≠ hn) (hitn : i ≠ tn) :
    row (grad_update E R h r t hn rn tn lr).1 i = row E i := by
  simp only [grad_update]
  rw [row_set_ne _ _ _ _ (Ne.symm hitn), row_set_ne _ _ _ _ (Ne.symm hihn),
    row_set_ne _ _ _ _ (Ne.symm hit), row_set_ne _ _ _ _ (Ne.symm hih),
    row_set_ne _ _ _ _ (Ne.symm hitn), row_set_ne _ _ _ _ (Ne.symm hihn),
    row_set_ne _ _ _ _ (Ne.symm hit), row_set_ne _ _ _ _ (Ne.symm hih)]

/-- The full accepted-pair update keeps every entity row inside the unit
ball: touched rows are re-projected, untouched rows are unchanged. -/
theorem apply_update_inv (E R : Mat) (h r t hn rn tn : ℕ) (lr : ℝ)
    (hE : ∀ i, normSq (row E i) ≤ 1) :
    ∀ i, normSq (row (apply_update E R h r t hn rn tn lr).1 i) ≤ 1 := by
  intro i
  simp only [apply_update]
  by_cases hi : i = h ∨ i = t ∨ i = hn ∨ i = tn
  · exact project_entities_touched _ h t hn tn i hi
  · push_neg at hi
    rw [project_entities_ne _ _ _ _ _ _ hi.1 hi.2.1 hi.2.2.1 hi.2.2.2,
      grad_update_ne E R h r t hn rn tn lr i hi.1 hi.2.1 hi.2.2.1 hi.2.2.2]
    exact hE i

/-- One negative-sample step preserves the unit-ball invariant on entity
rows, whether or not the update fires. -/
theorem neg_sample_step_inv (σ : ℕ → ℕ) (n : ℕ) (S : List Triple) (w : ℕ → ℝ)
    (margin lr : ℝ) (h r t : ℕ) (pos : ℝ) (s : Mat × Mat × ℕ)
    (hE : ∀ i, normSq (row s.1 i) ≤ 1) :
    ∀ i, normSq (row (neg_sample_step σ n S w margin lr h r t pos s).1 i) ≤ 1 := by
  intro i
  unfold neg_sample_step
  by_cases hl : 0 < margin_loss (w r)
      margin pos (compute_score
        (row s.1 (generate_negative_sample σ s.2.2 (h, r, t) n S 100).1.1)
        (row s.2.1 (generate_negative_sample σ s.2.2 (h, r, t) n S 100).1.2.1)
        (row s.1 (generate_negative_sample σ s.2.2 (h, r, t) n S 100).1.2.2))
  · rw [if_pos hl]
    exact apply_update_inv s.1 s.2.1 h r t _ _ _ lr hE i
  · rw [if_neg hl]
    exact hE i

/-- Iterating an invariant-preserving function preserves the invariant. -/
theorem iterN_inv {α : Type} (P : α → Prop) (f : α → α)
    (hf : ∀ a, P a → P (f a)) : ∀ (m : ℕ) (a : α), P a → P (iterN f m a) := by
  intro m
  induction m with
  | zero => intro a ha; exact ha
  | succ m ih => intro a ha; exact ih (f a) (hf a ha)

/-- Folding an invariant-preserving function preserves the invariant. -/
theorem foldl_inv {α β : Type} (P : α → Prop) (f : α → β → α)
    (hf : ∀ a b, P a → P (f a b)) :
    ∀ (l : List β) (init : α), P init → P (l.foldl f init) := by
  intro l
  induction l with
  | nil => intro init h; exact h
  | cons b tl ih => intro init h; exact ih (f init b) (hf init b h)

/-- Processing one positive fact preserves the unit-ball invariant. -/
theorem fact_step_inv (σ : ℕ → ℕ) (n : ℕ) (S : List Triple) (w : ℕ → ℝ)
    (margin lr : ℝ) (ns : ℕ) (s : Mat × Mat × ℕ) (tr : Triple)
    (hE : ∀ i, normSq (row s.1 i) ≤ 1) :
    ∀ i, normSq (row (fact_step σ n S w margin lr ns s tr).1 i) ≤ 1 := by
  unfold fact_step
  exact iterN_inv (fun st => ∀ i, normSq (row st.1 i) ≤ 1) _
    (fun a ha => neg_sample_step_inv σ n S w margin lr tr.1 tr.2.1 tr.2.2 _ a ha) ns s hE

/-- One full epoch preserves the unit-ball invariant on the entity matrix. -/
theorem epoch_step_inv (σ : ℕ → ℕ) (n : ℕ) (S : List Triple) (w : ℕ → ℝ)
    (margin lr0 : ℝ) (ns bs : ℕ) (valT : List Triple) (s : TState)
    (hE : ∀ i, normSq (row s.entityEmb i) ≤ 1) :
    ∀ i, normSq (row (epoch_step σ n S w margin lr0 ns bs valT s).1.entityEmb i) ≤ 1 := by
  have hfold := foldl_inv (fun st : Mat × Mat × ℕ => ∀ i, normSq (row st.1 i) ≤ 1)
    (fun st batch => batch.foldl
      (fact_step σ n S w margin (lr0 / (1 + (1 / 100 : ℝ) * s.epoch)) ns) st)
    (fun a batch ha => foldl_inv (fun st : Mat × Mat × ℕ => ∀ i, normSq (row st.1 i) ≤ 1)
      (fact_step σ n S w margin (lr0 / (1 + (1 / 100 : ℝ) * s.epoch)) ns)
      (fun a2 tr ha2 => fact_step_inv σ n S w margin _ ns a2 tr ha2) batch a ha)
    (List.toChunks bs (py_shuffle σ s.rng s.train).1)
    (s.entityEmb, s.relationEmb, (py_shuffle σ s.rng s.train).2) hE
  intro i
  simpa only [epoch_step] using hfold i

/-- Claim C2, confirmed: the Embedding Initializer's row normalization lands
every entity row inside the unit ball; every single gradient step of the
Trainer preserves that invariant for every entity row, touched or untouched
(touched rows are conditionally re-projected using norms read before the
divisions, untouched rows are unchanged, and relation rows are never
projected); consequently the matrices the Trainer returns also satisfy it. -/
theorem c2_unit_ball_invariant :
    (∀ v : Vec, normSq (normalize_row v) ≤ 1) ∧
    (∀ (σ : ℕ → ℕ) (n : ℕ) (S : List Triple) (w : ℕ → ℝ) (margin lr : ℝ)
        (h r t : ℕ) (pos : ℝ) (s : Mat × Mat × ℕ),
        (∀ i, normSq (row s.1 i) ≤ 1) →
        ∀ i, normSq (row (neg_sample_step σ n S w margin lr h r t pos s).1 i) ≤ 1) ∧
    (∀ (σ : ℕ → ℕ) (train valT : List Triple) (E0 R0 : Mat) (w : ℕ → ℝ)
        (cap bs : ℕ) (lr0 margin : ℝ) (ns p : ℕ),
        (∀ i, normSq (row E0 i) ≤ 1) →
        ∀ i, normSq (row
          (train_transe_enhanced σ train valT E0 R0 w cap bs lr0 margin ns p).1.1 i) ≤ 1) := by
  refine ⟨?_, neg_sample_step_inv, ?_⟩
  · intro v
    unfold normalize_row
    rw [normSq_vdiv]
    have hsq : (vnorm v) ^ 2 = normSq v := Real.sq_sqrt (normSq_nonneg v)
    have hnn : 0 ≤ vnorm v := Real.sqrt_nonneg _
    have heps : (0 : ℝ) < 1 / 10 ^ 10 := by norm_num
    have hlt : normSq v < (vnorm v + 1 / 10 ^ 10) ^ 2 := by nlinarith
    have hden : (0 : ℝ) < (vnorm v + 1 / 10 ^ 10) ^ 2 := by positivity
    rw [div_le_one hden]
    linarith
  · intro σ train valT E0 R0 w cap bs lr0 margin ns p hE0
    unfold train_transe_enhanced
    exact train_go_fst_inv _ _ p
      (fun st : TState => ∀ i, normSq (row st.entityEmb i) ≤ 1)
      (fun m : Mat × Mat => ∀ i, normSq (row m.1 i) ≤ 1)
      (fun st hst => epoch_step_inv σ E0.length train w margin lr0 ns bs valT st hst)
      (fun st hst => hst) cap _ _ none 0 hE0 hE0

/-- Witness for C2: a concrete one-row matrix inside the unit ball stays
inside it through a full training run. -/
theorem c2_witness :
    ∀ i, normSq (row (train_transe_enhanced (fun _ => 0) [(0, 0, 0)] [(0, 0, 0)]
      [[(0 : ℝ)]] [[(0 : ℝ)]] (fun _ => 1) 2 256 (1 / 1000) 1 2 30).1.1 i) ≤ 1 :=
  c2_unit_ball_invariant.2.2 (fun _ => 0) [(0, 0, 0)] [(0, 0, 0)]
    [[(0 : ℝ)]] [[(0 : ℝ)]] (fun _ => 1) 2 256 (1 / 1000) 1 2 30
    (by
      intro i
      rcases i with _ | i <;> simp [row, normSq])

/-- A validator draw consumes exactly two oracle reads. -/
theorem val_neg_draw_snd (σ : ℕ → ℕ) (k h r t n : ℕ) :
    (val_neg_draw σ k h r t n).2 = k + 2 := by
  unfold val_neg_draw
  split <;> rfl

/-- Closed form of the validator's inner loop: the loss sum over `j`
corruptions drawn at consecutive offset pairs. -/
theorem eval_negs_eq (σ : ℕ → ℕ) (E R : Mat) (w : ℕ → ℝ) (n : ℕ) (margin : ℝ)
    (h r t : ℕ) (pos : ℝ) : ∀ (j k : ℕ),
    eval_negs σ E R w n margin h r t pos j k
      = (∑ x ∈ Finset.range j, val_pair_loss σ (k + 2 * x) E R w n margin h r t pos,
         k + 2 * j) := by
  intro j
  induction j with
  | zero => intro k; simp [eval_negs]
  | succ m ih =>
      intro k
      simp only [eval_negs, val_neg_draw_snd]
      rw [ih (k + 2)]
      simp only [Prod.mk.injEq]
      constructor
      · rw [Finset.sum_range_succ'
          (fun x => val_pair_loss σ (k + 2 * x) E R w n margin h r t pos) m]
        simp only [show ∀ x, k + 2 * (x + 1) = k + 2 + 2 * x from fun x => by ring,
          Nat.mul_zero, Nat.add_zero]
        exact add_comm _ _
      · ring

/-- Closed form of the validator's outer loop: total loss as a double sum over
facts and corruption draws, pair count `len * ns`, offset advanced by
`2 * ns * len`. -/
theorem eval_triples_eq (σ : ℕ → ℕ) (E R : Mat) (w : ℕ → ℝ) (n ns : ℕ)
    (margin : ℝ) : ∀ (ts : List Triple) (k : ℕ),
    eval_triples σ E R w n ns margin ts k
      = (∑ i ∈ Finset.range ts.length, ∑ j ∈ Finset.range ns,
           val_pair_loss σ (k + 2 * (ns * i + j)) E R w n margin
             (ts.getD i (0, 0, 0)).1 (ts.getD i (0, 0, 0)).2.1 (ts.getD i (0, 0, 0)).2.2
             (compute_score (row E (ts.getD i (0, 0, 0)).1)
               (row R (ts.getD i (0, 0, 0)).2.1) (row E (ts.getD i (0, 0, 0)).2.2)),
         ts.length * ns, k + 2 * ns * ts.length) := by
  intro ts
  induction ts with
  | nil => intro k; simp [eval_triples]
  | cons tr rest ih =>
      intro k
      simp only [eval_triples]
      rw [eval_negs_eq, ih (k + 2 * ns)]
      simp only [Prod.mk.injEq]
      refine ⟨?_, by simp [List.length_cons]; ring, by simp [List.length_cons]; ring⟩
      rw [List.length_cons, Finset.sum_range_succ']
      have hshift : ∀ i, (∑ j ∈ Finset.range ns,
          val_pair_loss σ (k + 2 * (ns * (i + 1) + j)) E R w n margin
            ((tr :: rest).getD (i + 1) (0, 0, 0)).1
            ((tr :: rest).getD (i + 1) (0, 0, 0)).2.1
            ((tr :: rest).getD (i + 1) (0, 0, 0)).2.2
            (compute_score (row E ((tr :: rest).getD (i + 1) (0, 0, 0)).1)
              (row R ((tr :: rest).getD (i + 1) (0, 0, 0)).2.1)
              (row E ((tr :: rest).getD (i + 1) (0, 0, 0)).2.2)))
          = ∑ j ∈ Finset.range ns,
          val_pair_loss σ (k + 2 * ns + 2 * (ns * i + j)) E R w n margin
            (rest.getD i (0, 0, 0)).1 (rest.getD i (0, 0, 0)).2.1 (rest.getD i (0, 0, 0)).2.2
            (compute_score (row E (rest.getD i (0, 0, 0)).1)
              (row R (rest.getD i (0, 0, 0)).2.1) (row E (rest.getD i (0, 0, 0)).2.2)) := by
        intro i
        refine Finset.sum_congr rfl fun j _ => ?_
        rw [List.getD_cons_succ,
          show k + 2 * (ns * (i + 1) + j) = k + 2 * ns + 2 * (ns * i + j) from by ring]
      simp only [hshift, List.getD_cons_zero, Nat.mul_zero, Nat.zero_add, Nat.add_zero]
      exact add_comm _ _

/-- Claim C4, corrected: the Validator returns the mean, with guarded divisor
`max(count, 1)` and `count = len * neg_samples`, of the shared weighted
margin-loss formula applied to each fact's positive score and the score of a
negative drawn by `val_neg_draw` — the single unchecked head-or-tail
corruption, not the Trainer's collision-avoiding sampler — and it mutates
nothing, being a function of its inputs to a scalar. -/
theorem c4_validator_mean_closed_form (σ : ℕ → ℕ) (k : ℕ) (ts : List Triple)
    (E R : Mat) (w : ℕ → ℝ) (n ns : ℕ) (margin : ℝ) :
    evaluate_model_margin σ k ts E R w n ns margin
      = ((∑ i ∈ Finset.range ts.length, ∑ j ∈ Finset.range ns,
            val_pair_loss σ (k + 2 * (ns * i + j)) E R w n margin
              (ts.getD i (0, 0, 0)).1 (ts.getD i (0, 0, 0)).2.1 (ts.getD i (0, 0, 0)).2.2
              (compute_score (row E (ts.getD i (0, 0, 0)).1)
                (row R (ts.getD i (0, 0, 0)).2.1) (row E (ts.getD i (0, 0, 0)).2.2)))
          / (max (ts.length * ns) 1 : ℕ),
         k + 2 * ns * ts.length) := by
  unfold evaluate_model_margin
  rw [eval_triples_eq]

/-- The best-validation epoch never exceeds the current epoch. -/
theorem bestEp_le (v : ℕ → ℝ) : ∀ e, bestEp v e ≤ e := by
  intro e
  induction e with
  | zero => simp [bestEp]
  | succ e ih =>
      simp only [bestEp]
      split
      · exact le_refl _
      · omega

/-- The score at the best-validation epoch is the running minimum. -/
theorem bestSc_eq (v : ℕ → ℝ) : ∀ e, v (bestEp v e) = bestSc v e := by
  intro e
  induction e with
  | zero => simp [bestEp, bestSc]
  | succ e ih =>
      simp only [bestEp, bestSc]
      by_cases hlt : v (e + 1) < bestSc v e
      · rw [if_pos hlt, min_eq_left (le_of_lt hlt)]
      · rw [if_neg hlt, min_eq_right (not_lt.mp hlt)]
        exact ih

/-- The running minimum bounds every earlier score. -/
theorem bestSc_le (v : ℕ → ℝ) : ∀ e j, j ≤ e → bestSc v e ≤ v j := by
  intro e
  induction e with
  | zero =>
      intro j hj
      have : j = 0 := by omega
      subst this
      exact le_refl _
  | succ e ih =>
      intro j hj
      by_cases hje : j ≤ e
      · exact le_trans (min_le_right _ _) (ih j hje)
      · have : j = e + 1 := by omega
        subst this
        exact min_le_left _ _

/-- Main induction for the early-stopping loop: starting mid-run after epoch
`e` with the invariant state (best snapshot at the best epoch so far, best
score equal to the running minimum, patience counter equal to the epochs
since the last improvement), the loop returns the best snapshot of the epochs
it ran, runs no longer than its fuel, stops only by fuel exhaustion or a full
patience window, and never stops earlier. -/
theorem train_go_run {S M : Type} (step : S → S × ℝ) (snap : S → M) (p : ℕ)
    (s0 : S) (hp : 1 ≤ p) :
    ∀ (f e : ℕ) (r : M × ℕ),
      e - bestEp (vseq step s0) e < p →
      r = train_go step snap p f (states step s0 (e + 1))
        (snap (states step s0 (bestEp (vseq step s0) e + 1)))
        (some (bestSc (vseq step s0) e)) (e - bestEp (vseq step s0) e) →
      r.1 = snap (states step s0 (bestEp (vseq step s0) (e + r.2) + 1)) ∧
      r.2 ≤ f ∧
      (r.2 = f ∨ p ≤ (e + r.2) - bestEp (vseq step s0) (e + r.2)) ∧
      (∀ j, e < j → j < e + r.2 → j - bestEp (vseq step s0) j < p) := by
  intro f
  induction f with
  | zero =>
      intro e r hc hr
      simp only [train_go] at hr
      subst hr
      refine ⟨by simp, le_refl 0, Or.inl rfl, ?_⟩
      intro j h1 h2
      omega
  | succ f ih =>
      intro e r hc hr
      have hpair : step (states step s0 (e + 1))
          = (states step s0 (e + 1 + 1), vseq step s0 (e + 1)) := rfl
      simp only [train_go, hpair] at hr
      by_cases hlt : vseq step s0 (e + 1) < bestSc (vseq step s0) e
      · have himp : improvesB (vseq step s0 (e + 1)) (some (bestSc (vseq step s0) e)) = true :=
          decide_eq_true hlt
        rw [himp, if_pos rfl, if_neg (by omega : ¬p = 0)] at hr
        have heq1 : bestEp (vseq step s0) (e + 1) = e + 1 := by
          simp [bestEp, hlt]
        have heq2 : bestSc (vseq step s0) (e + 1) = vseq step s0 (e + 1) := by
          simp [bestSc, min_eq_left (le_of_lt hlt)]
        have hIH := ih (e + 1)
          (train_go step snap p f (states step s0 (e + 1 + 1))
            (snap (states step s0 (e + 1 + 1))) (some (vseq step s0 (e + 1))) 0)
          (by rw [heq1]; omega)
          (by rw [heq1, heq2, Nat.sub_self])
        obtain ⟨ha, hb, hor, hd⟩ := hIH
        subst hr
        refine ⟨?_, by simpa using hb, ?_, ?_⟩
        · rw [show e + ((train_go step snap p f (states step s0 (e + 1 + 1))
              (snap (states step s0 (e + 1 + 1))) (some (vseq step s0 (e + 1))) 0).2 + 1)
              = (e + 1) + (train_go step snap p f (states step s0 (e + 1 + 1))
              (snap (states step s0 (e + 1 + 1))) (some (vseq step s0 (e + 1))) 0).2
              from by omega]
          exact ha
        · rcases hor with h | h
          · exact Or.inl (by simp [h])
          · exact Or.inr (by
              rw [show e + ((train_go step snap p f (states step s0 (e + 1 + 1))
                  (snap (states step s0 (e + 1 + 1))) (some (vseq step s0 (e + 1))) 0).2 + 1)
                  = (e + 1) + (train_go step snap p f (states step s0 (e + 1 + 1))
                  (snap (states step s0 (e + 1 + 1))) (some (vseq step s0 (e + 1))) 0).2
                  from by omega]
              exact h)
        · intro j h1 h2
          by_cases hj : j = e + 1
          · subst hj
            rw [heq1]
            omega
          · exact hd j (by omega) (by
              simp only [] at h2
              omega)
      · have himp : improvesB (vseq step s0 (e + 1)) (some (bestSc (vseq step s0) e)) = false :=
          decide_eq_false hlt
        rw [himp] at hr
        simp only [Bool.false_eq_true, if_false] at hr
        have heq1 : bestEp (vseq step s0) (e + 1) = bestEp (vseq step s0) e := by
          simp [bestEp, hlt]
        have heq2 : bestSc (vseq step s0) (e + 1) = bestSc (vseq step s0) e := by
          simp [bestSc, min_eq_right (not_lt.mp hlt)]
        have hble := bestEp_le (vseq step s0) e
        by_cases hstop : p ≤ e - bestEp (vseq step s0) e + 1
        · rw [if_pos hstop] at hr
          subst hr
          refine ⟨?_, by omega, Or.inr ?_, ?_⟩
          · show snap (states step s0 (bestEp (vseq step s0) e + 1))
              = snap (states step s0 (bestEp (vseq step s0) (e + 1) + 1))
            rw [heq1]
          · rw [heq1]
            omega
          · intro j h1 h2
            omega
        · rw [if_neg hstop] at hr
          have hIH := ih (e + 1)
            (train_go step snap p f (states step s0 (e + 1 + 1))
              (snap (states step s0 (bestEp (vseq step s0) e + 1)))
              (some (bestSc (vseq step s0) e)) (e - bestEp (vseq step s0) e + 1))
            (by rw [heq1]; omega)
            (by rw [heq1, heq2, show e + 1 - bestEp (vseq step s0) e
                  = e - bestEp (vseq step s0) e + 1 from by omega])
          obtain ⟨ha, hb, hor, hd⟩ := hIH
          subst hr
          refine ⟨?_, by simpa using hb, ?_, ?_⟩
          · rw [show e + ((train_go step snap p f (states step s0 (e + 1 + 1))
                (snap (states step s0 (bestEp (vseq step s0) e + 1)))
                (some (bestSc (vseq step s0) e)) (e - bestEp (vseq step s0) e + 1)).2 + 1)
                = (e + 1) + (train_go step snap p f (states step s0 (e + 1 + 1))
                (snap (states step s0 (bestEp (vseq step s0) e + 1)))
                (some (bestSc (vseq step s0) e)) (e - bestEp (vseq step s0) e + 1)).2
                from by omega]
            exact ha
          · rcases hor with h | h
            · exact Or.inl (by simp [h])
            · exact Or.inr (by
                rw [show e + ((train_go step snap p f (states step s0 (e + 1 + 1))
                    (snap (states step s0 (bestEp (vseq step s0) e + 1)))
                    (some (bestSc (vseq step s0) e)) (e - bestEp (vseq step s0) e + 1)).2 + 1)
                    = (e + 1) + (train_go step snap p f (states step s0 (e + 1 + 1))
                    (snap (states step s0 (bestEp (vseq step s0) e + 1)))
                    (some (bestSc (vseq step s0) e)) (e - bestEp (vseq step s0) e + 1)).2
                    from by omega]
                exact h)
          · intro j h1 h2
            by_cases hj : j = e + 1
            · subst hj
              rw [heq1]
              omega
            · exact hd j (by omega) (by omega)

/-- Claim C3, confirmed: for every run of the early-stopping loop with
patience at least 1 and a positive epoch cap, the loop runs between 1 and
`cap` epochs; it returns the snapshot captured right after the
best-validation epoch (the last strict improvement of the running minimum),
not the live state; that epoch's score is minimal among all scores seen; the
loop stops only when the cap is reached or when the patience counter — the
epochs since the last strict improvement — has reached `p`; and no earlier
epoch had already filled a full patience window. -/
theorem c3_early_stopping {S M : Type} (step : S → S × ℝ) (snap : S → M)
    (p cap : ℕ) (s0 : S) (best0 : M) (hp : 1 ≤ p) (hcap : 1 ≤ cap) :
    1 ≤ (train_go step snap p cap s0 best0 none 0).2 ∧
    (train_go step snap p cap s0 best0 none 0).2 ≤ cap ∧
    (train_go step snap p cap s0 best0 none 0).1
      = snap (states step s0
          (bestEp (vseq step s0) ((train_go step snap p cap s0 best0 none 0).2 - 1) + 1)) ∧
    (∀ j, j ≤ (train_go step snap p cap s0 best0 none 0).2 - 1 →
        vseq step s0 (bestEp (vseq step s0) ((train_go step snap p cap s0 best0 none 0).2 - 1))
          ≤ vseq step s0 j) ∧
    ((train_go step snap p cap s0 best0 none 0).2 = cap ∨
      p ≤ ((train_go step snap p cap s0 best0 none 0).2 - 1)
            - bestEp (vseq step s0) ((train_go step snap p cap s0 best0 none 0).2 - 1)) ∧
    (∀ j, j + 1 < (train_go step snap p cap s0 best0 none 0).2 →
        j - bestEp (vseq step s0) j < p) := by
  cases cap with
  | zero => omega
  | succ f =>
      have hbe0 : bestEp (vseq step s0) 0 = 0 := rfl
      have hr : train_go step snap p (f + 1) s0 best0 none 0
          = ((train_go step snap p f (step s0).1 (snap (step s0).1)
                (some (step s0).2) 0).1,
             (train_go step snap p f (step s0).1 (snap (step s0).1)
                (some (step s0).2) 0).2 + 1) := by
        simp only [train_go]
        rw [show improvesB (step s0).2 none = true from rfl, if_pos rfl,
          if_neg (by omega : ¬p = 0)]
      have hIH := train_go_run step snap p s0 hp f 0
        (train_go step snap p f (step s0).1 (snap (step s0).1) (some (step s0).2) 0)
        (by rw [hbe0]; omega) rfl
      obtain ⟨ha, hb, hor, hd⟩ := hIH
      rw [hr]
      refine ⟨by omega, by omega, ?_, ?_, ?_, ?_⟩
      · show (train_go step snap p f (step s0).1 (snap (step s0).1) (some (step s0).2) 0).1
          = snap (states step s0 (bestEp (vseq step s0)
              ((train_go step snap p f (step s0).1 (snap (step s0).1)
                (some (step s0).2) 0).2 + 1 - 1) + 1))
        rw [show (train_go step snap p f (step s0).1 (snap (step s0).1)
              (some (step s0).2) 0).2 + 1 - 1
            = 0 + (train_go step snap p f (step s0).1 (snap (step s0).1)
              (some (step s0).2) 0).2 from by omega]
        exact ha
      · intro j hj
        rw [bestSc_eq (vseq step s0)]
        exact bestSc_le _ _ j (by simpa using hj)
      · rcases hor with h | h
        · exact Or.inl (by simp [h])
        · refine Or.inr ?_
          rw [show (train_go step snap p f (step s0).1 (snap (step s0).1)
                (some (step s0).2) 0).2 + 1 - 1
              = 0 + (train_go step snap p f (step s0).1 (snap (step s0).1)
                (some (step s0).2) 0).2 from by omega]
          exact h
      · intro j hj
        by_cases hj0 : j = 0
        · subst hj0
          rw [hbe0]
          omega
        · exact hd j (by omega) (by simp at hj; omega)

/-- Witness for C3 at a concrete one-epoch run with constant scores. -/
theorem c3_witness :
    1 ≤ (train_go (fun s : ℕ => (s + 1, (0 : ℝ))) id 1 1 0 7 none 0).2 ∧
    (train_go (fun s : ℕ => (s + 1, (0 : ℝ))) id 1 1 0 7 none 0).2 ≤ 1 ∧
    (train_go (fun s : ℕ => (s + 1, (0 : ℝ))) id 1 1 0 7 none 0).1
      = id (states (fun s : ℕ => (s + 1, (0 : ℝ))) 0
          (bestEp (vseq (fun s : ℕ => (s + 1, (0 : ℝ))) 0)
            ((train_go (fun s : ℕ => (s + 1, (0 : ℝ))) id 1 1 0 7 none 0).2 - 1) + 1)) ∧
    (∀ j, j ≤ (train_go (fun s : ℕ => (s + 1, (0 : ℝ))) id 1 1 0 7 none 0).2 - 1 →
        vseq (fun s : ℕ => (s + 1, (0 : ℝ))) 0
          (bestEp (vseq (fun s : ℕ => (s + 1, (0 : ℝ))) 0)
            ((train_go (fun s : ℕ => (s + 1, (0 : ℝ))) id 1 1 0 7 none 0).2 - 1))
          ≤ vseq (fun s : ℕ => (s + 1, (0 : ℝ))) 0 j) ∧
    ((train_go (fun s : ℕ => (s + 1, (0 : ℝ))) id 1 1 0 7 none 0).2 = 1 ∨
      1 ≤ ((train_go (fun s : ℕ => (s + 1, (0 : ℝ))) id 1 1 0 7 none 0).2 - 1)
            - bestEp (vseq (fun s : ℕ => (s + 1, (0 : ℝ))) 0)
              ((train_go (fun s : ℕ => (s + 1, (0 : ℝ))) id 1 1 0 7 none 0).2 - 1)) ∧
    (∀ j, j + 1 < (train_go (fun s : ℕ => (s + 1, (0 : ℝ))) id 1 1 0 7 none 0).2 →
        j - bestEp (vseq (fun s : ℕ => (s + 1, (0 : ℝ))) 0) j < 1) :=
  c3_early_stopping (fun s : ℕ => (s + 1, (0 : ℝ))) id 1 1 0 7 (le_refl 1) (le_refl 1)
